import Mathlib

/-!
Verification model of the conversational core of `mcp-web-ui`
(message store on bbolt, provider adapters for Anthropic and Ollama,
the agentic chat engine, and the HTTP chat handler).

Go values of type `json.RawMessage` are modelled as `String`; the empty
string models the `nil` raw message (which `encoding/json` marshals as
`null` without error).  Validity of a raw message under `json.Marshal`
is modelled by an executable JSON parser below.
-/

namespace MWU

/-- Abstract JSON values, used to model `encoding/json` validity checks
and payload shapes.  Number lexemes are kept verbatim. -/
inductive Json where
  | null
  | bool (b : Bool)
  | num (lexeme : String)
  | str (s : String)
  | arr (elems : List Json)
  | obj (fields : List (String × Json))
deriving Repr

def isWsChar (c : Char) : Bool :=
  c = ' ' || c = '\t' || c = '\n' || c = '\r'

def skipWs : List Char → List Char
  | [] => []
  | c :: cs => if isWsChar c then skipWs cs else c :: cs

def isHexChar (c : Char) : Bool :=
  c.isDigit || ('a' ≤ c && c ≤ 'f') || ('A' ≤ c && c ≤ 'F')

def hexVal (c : Char) : Nat :=
  if c.isDigit then c.toNat - '0'.toNat
  else if 'a' ≤ c && c ≤ 'f' then c.toNat - 'a'.toNat + 10
  else if 'A' ≤ c && c ≤ 'F' then c.toNat - 'A'.toNat + 10
  else 0

/-- Parse the body of a JSON string literal (the opening quote already
consumed); returns the decoded string and the rest of the input. -/
def parseStrBody : Nat → List Char → List Char → Option (String × List Char)
  | 0, _, _ => none
  | _ + 1, [], _ => none
  | fuel + 1, c :: cs, acc =>
    if c = '"' then some (String.mk acc.reverse, cs)
    else if c = '\\' then
      match cs with
      | [] => none
      | e :: cs2 =>
        if e = '"' then parseStrBody fuel cs2 ('"' :: acc)
        else if e = '\\' then parseStrBody fuel cs2 ('\\' :: acc)
        else if e = '/' then parseStrBody fuel cs2 ('/' :: acc)
        else if e = 'b' then parseStrBody fuel cs2 ('\x08' :: acc)
        else if e = 'f' then parseStrBody fuel cs2 ('\x0c' :: acc)
        else if e = 'n' then parseStrBody fuel cs2 ('\n' :: acc)
        else if e = 'r' then parseStrBody fuel cs2 ('\r' :: acc)
        else if e = 't' then parseStrBody fuel cs2 ('\t' :: acc)
        else if e = 'u' then
          match cs2 with
          | h1 :: h2 :: h3 :: h4 :: cs3 =>
            if isHexChar h1 && isHexChar h2 && isHexChar h3 && isHexChar h4 then
              let n := ((hexVal h1 * 16 + hexVal h2) * 16 + hexVal h3) * 16 + hexVal h4
              parseStrBody fuel cs3 (Char.ofNat n :: acc)
            else none
          | _ => none
        else none
    else if c.toNat < 32 then none
    else parseStrBody fuel cs (c :: acc)

/-- Split a leading run of decimal digits off a character list. -/
def takeDigits : List Char → (List Char × List Char)
  | [] => ([], [])
  | c :: cs =>
    if c.isDigit then
      let (d, r) := takeDigits cs
      (c :: d, r)
    else ([], c :: cs)

/-- Parse the fractional and exponent part of a JSON number (may be empty). -/
def parseFracExp (cs : List Char) : Option (List Char × List Char) :=
  let (frac, cs1) :=
    match cs with
    | '.' :: cs0 =>
      match takeDigits cs0 with
      | ([], _) => ([], '.' :: cs0)
      | (d, r) => ('.' :: d, r)
    | _ => ([], cs)
  match frac, cs with
  | [], '.' :: _ => none
  | _, _ =>
    match cs1 with
    | e :: cs2 =>
      if e = 'e' || e = 'E' then
        let (sgn, cs3) :=
          match cs2 with
          | s :: cs3 => if s = '+' || s = '-' then ([s], cs3) else ([], cs2)
          | [] => ([], cs2)
        match takeDigits cs3 with
        | ([], _) => none
        | (d, r) => some (frac ++ e :: sgn ++ d, r)
      else some (frac, cs1)
    | [] => some (frac, cs1)

/-- Parse a JSON number lexeme. -/
def parseNum (cs : List Char) : Option (String × List Char) :=
  let (sgn, cs1) :=
    match cs with
    | '-' :: cs0 => (['-'], cs0)
    | _ => ([], cs)
  match cs1 with
  | [] => none
  | c :: cs2 =>
    if c = '0' then
      match parseFracExp cs2 with
      | some (fe, r) => some (String.mk (sgn ++ '0' :: fe), r)
      | none => none
    else if c.isDigit then
      let (d, cs3) := takeDigits cs2
      match parseFracExp cs3 with
      | some (fe, r) => some (String.mk (sgn ++ c :: d ++ fe), r)
      | none => none
    else none

mutual

/-- Parse one JSON value, fuel-bounded. -/
def parseVal : Nat → List Char → Option (Json × List Char)
  | 0, _ => none
  | fuel + 1, cs =>
    match skipWs cs with
    | [] => none
    | c :: cs1 =>
      if c = '"' then
        match parseStrBody (cs1.length + 1) cs1 [] with
        | some (s, r) => some (.str s, r)
        | none => none
      else if c = '{' then
        match skipWs cs1 with
        | '}' :: r => some (.obj [], r)
        | _ => match parseObjRest fuel cs1 with
          | some (fs, r) => some (.obj fs, r)
          | none => none
      else if c = '[' then
        match skipWs cs1 with
        | ']' :: r => some (.arr [], r)
        | _ => match parseArrRest fuel cs1 with
          | some (vs, r) => some (.arr vs, r)
          | none => none
      else if c = 't' then
        match cs1 with
        | 'r' :: 'u' :: 'e' :: r => some (.bool true, r)
        | _ => none
      else if c = 'f' then
        match cs1 with
        | 'a' :: 'l' :: 's' :: 'e' :: r => some (.bool false, r)
        | _ => none
      else if c = 'n' then
        match cs1 with
        | 'u' :: 'l' :: 'l' :: r => some (.null, r)
        | _ => none
      else
        match parseNum (c :: cs1) with
        | some (s, r) => some (.num s, r)
        | none => none

/-- Parse the non-empty element list of a JSON array, up to and including
the closing bracket. -/
def parseArrRest : Nat → List Char → Option (List Json × List Char)
  | 0, _ => none
  | fuel + 1, cs =>
    match parseVal fuel cs with
    | none => none
    | some (v, r) =>
      match skipWs r with
      | ',' :: r2 =>
        match parseArrRest fuel r2 with
        | some (vs, r3) => some (v :: vs, r3)
        | none => none
      | ']' :: r2 => some ([v], r2)
      | _ => none

/-- Parse the non-empty field list of a JSON object, up to and including
the closing brace. -/
def parseObjRest : Nat → List Char → Option (List (String × Json) × List Char)
  | 0, _ => none
  | fuel + 1, cs =>
    match skipWs cs with
    | '"' :: cs1 =>
      match parseStrBody (cs1.length + 1) cs1 [] with
      | none => none
      | some (k, r) =>
        match skipWs r with
        | ':' :: r2 =>
          match parseVal fuel r2 with
          | none => none
          | some (v, r3) =>
            match skipWs r3 with
            | ',' :: r4 =>
              match parseObjRest fuel r4 with
              | some (fs, r5) => some ((k, v) :: fs, r5)
              | none => none
            | '}' :: r4 => some ([(k, v)], r4)
            | _ => none
        | _ => none
    | _ => none

end

/-- Parse a whole JSON document (a single value with surrounding whitespace). -/
def parseJson (s : String) : Option Json :=
  match parseVal (2 * s.length + 8) s.data with
  | some (v, r) => if skipWs r = [] then some v else none
  | none => none

/-- Validity of a `json.RawMessage` under `json.Marshal` (Go validates the
raw bytes while compacting them into the output). -/
def jsonValid (s : String) : Bool := (parseJson s).isSome

/-- Escaping of one character inside a Go `encoding/json` string literal
(Go additionally escapes the HTML characters by default). -/
def escChar (c : Char) : List Char :=
  if c = '"' then ['\\', '"']
  else if c = '\\' then ['\\', '\\']
  else if c = '\n' then ['\\', 'n']
  else if c = '\t' then ['\\', 't']
  else if c = '\r' then ['\\', 'r']
  else if c = '<' then "\\u003c".data
  else if c = '>' then "\\u003e".data
  else if c = '&' then "\\u0026".data
  else [c]

/-- Go `encoding/json` string quoting. -/
def jsonQuote (s : String) : String :=
  String.mk ('"' :: (s.data.map escChar).flatten ++ ['"'])

/-- Whether a string parses as a JSON object carrying a non-empty string
field named `error` (the payload shape the spec ascribes to tool errors). -/
def hasErrorField (s : String) : Bool :=
  match parseJson s with
  | some (.obj fields) =>
    match fields.lookup "error" with
    | some (.str e) => decide (e ≠ "")
    | _ => false
  | _ => false

/-- Whether a raw message unmarshals into a Go `map[string]any` / struct
(accepts a JSON object or `null`; anything else errors). -/
def jsonObjOrNull (s : String) : Bool :=
  match parseJson s with
  | some (.obj _) => true
  | some .null => true
  | _ => false

end MWU

namespace MWU

/-! ## Content model (`internal/models/chat.go`)

`models.ContentType` is a string type in Go; `empty` models its zero
value `ContentType("")`. -/

inductive ContentType where
  | empty
  | text
  | callTool
  | toolResult
deriving Repr, DecidableEq, Inhabited

/-- `models.Content`.  The `json.RawMessage` fields `ToolInput` and
`ToolResult` are strings; `""` models a nil raw message. -/
structure Content where
  type : ContentType := .empty
  text : String := ""
  toolName : String := ""
  toolInput : String := ""
  toolResult : String := ""
  callToolID : String := ""
  callToolFailed : Bool := false
deriving Repr, DecidableEq, Inhabited

/-- `models.Message` (`models.Role` is a string type in Go).  The
timestamp is an opaque instant. -/
structure Message where
  id : String := ""
  role : String := ""
  contents : List Content := []
  timestamp : Nat := 0
deriving Repr, DecidableEq, Inhabited

/-- `models.Chat`. -/
structure Chat where
  id : String := ""
  title : String := ""
deriving Repr, DecidableEq, Inhabited

/-- Marshalability of one content under `json.Marshal`: each raw-message
field must be valid JSON (or nil, modelled as the empty string). -/
def rawOk (s : String) : Bool := s = "" || jsonValid s

def contentMarshalOk (c : Content) : Bool :=
  rawOk c.toolInput && rawOk c.toolResult

/-- Whether `json.Marshal` succeeds on a `models.Message`. -/
def msgMarshalOk (m : Message) : Bool :=
  m.contents.all contentMarshalOk

/-! ## Message store (`internal/services/bolt.go`)

A bbolt bucket holds its per-bucket sequence counter and its entries in
byte-lexicographic key order (the iteration order of `ForEach`).  Stored
records are kept as model values; `json.Marshal`/`json.Unmarshal`
round-trip is reflected by the `msgMarshalOk` guard on writes. -/

/-- Byte order on UTF-8 strings (UTF-8 encoding preserves code-point
order, so comparing code points equals `bytes.Compare`). -/
def charListLt : List Char → List Char → Bool
  | [], [] => false
  | [], _ :: _ => true
  | _ :: _, [] => false
  | a :: as, b :: bs =>
    if a.toNat < b.toNat then true
    else if b.toNat < a.toNat then false
    else charListLt as bs

def keyLt (a b : String) : Bool := charListLt a.data b.data

/-- Insert or replace a key in a key-sorted entry list (bbolt `Put`). -/
def bucketPut (k : String) (v : α) : List (String × α) → List (String × α)
  | [] => [(k, v)]
  | (k1, v1) :: rest =>
    if keyLt k k1 then (k, v) :: (k1, v1) :: rest
    else if k = k1 then (k, v) :: rest
    else (k1, v1) :: bucketPut k v rest

def assocFind (k : String) : List (String × α) → Option α
  | [] => none
  | (k1, v) :: rest => if k1 = k then some v else assocFind k rest

def assocSet (k : String) (v : α) : List (String × α) → List (String × α)
  | [] => [(k, v)]
  | (k1, v1) :: rest => if k1 = k then (k, v) :: rest else (k1, v1) :: assocSet k v rest

/-- A bbolt bucket: sequence counter plus entries in key order. -/
structure Bucket (α : Type) where
  seq : Nat := 0
  entries : List (String × α) := []
deriving Repr, DecidableEq, Inhabited

/-- The store: the root `chats` bucket (created by `NewBoltDB`) and one
message bucket per chat, keyed `chat-<chat id>`. -/
structure BoltDB where
  chats : Bucket Chat := {}
  msgBuckets : List (String × Bucket Message) := []
deriving Repr, DecidableEq, Inhabited

def messageBucketName (chatID : String) : String := "chat-" ++ chatID

/-- `BoltDB.AddChat`: combine the next sequence number with the caller's
candidate id, create the chat's message bucket, store the chat. -/
def BoltDB.AddChat (db : BoltDB) (chat : Chat) : String × BoltDB :=
  let idPrefix := db.chats.seq + 1
  let newID := toString idPrefix ++ "-" ++ chat.id
  let stored : Chat := { chat with id := newID }
  let buckets :=
    match assocFind (messageBucketName newID) db.msgBuckets with
    | some _ => db.msgBuckets
    | none => db.msgBuckets ++ [(messageBucketName newID, {})]
  (newID,
   { db with
       chats := { seq := idPrefix, entries := bucketPut newID stored db.chats.entries },
       msgBuckets := buckets })

/-- `BoltDB.Messages`: all messages of a chat in stored (key) order; a
missing bucket yields the empty list with no error. -/
def BoltDB.Messages (db : BoltDB) (chatID : String) : List Message :=
  match assocFind (messageBucketName chatID) db.msgBuckets with
  | none => []
  | some bk => bk.entries.map (·.2)

/-- `BoltDB.AddMessage`: returns the assigned id, an error, and the new
store.  A missing bucket returns an empty id and no error while storing
nothing; a marshaling failure rolls the transaction back. -/
def BoltDB.AddMessage (db : BoltDB) (chatID : String) (message : Message) :
    String × Option String × BoltDB :=
  match assocFind (messageBucketName chatID) db.msgBuckets with
  | none => ("", none, db)
  | some bk =>
    let idPrefix := bk.seq + 1
    let newID := toString idPrefix ++ "-" ++ message.id
    let stored : Message := { message with id := newID }
    let bk2 : Bucket Message := { seq := idPrefix, entries := bucketPut newID stored bk.entries }
    if msgMarshalOk stored then
      (newID, none, { db with msgBuckets := assocSet (messageBucketName chatID) bk2 db.msgBuckets })
    else
      (newID, some "failed to marshal message", db)

/-- `BoltDB.UpdateMessage`: unconditional `Put` at `message.ID`; a
missing bucket is a silent no-op. -/
def BoltDB.UpdateMessage (db : BoltDB) (chatID : String) (message : Message) :
    Option String × BoltDB :=
  match assocFind (messageBucketName chatID) db.msgBuckets with
  | none => (none, db)
  | some bk =>
    let bk2 : Bucket Message := { bk with entries := bucketPut message.id message bk.entries }
    if msgMarshalOk message then
      (none, { db with msgBuckets := assocSet (messageBucketName chatID) bk2 db.msgBuckets })
    else
      (some "failed to marshal message", db)

end MWU

namespace MWU

/-! ## Tool dispatch (`internal/handlers/chat.go`: `callToolError`, `callTool`)

`mcp.Content` is the go-mcp wire content: JSON keys `type` and `text`,
with `text` omitted when empty (`omitempty`).  A connected MCP client is
modelled as a function from call parameters to either a transport error
or a result whose content list is kept in its serialized form (it was
decoded from the wire, so re-marshaling it cannot fail). -/

structure McpContent where
  type : String := "text"
  text : String := ""
deriving Repr, DecidableEq, Inhabited

/-- `mcp.CallToolParams` (arguments are a raw JSON message). -/
structure CallToolParams where
  name : String := ""
  arguments : String := ""
deriving Repr, DecidableEq, Inhabited

/-- An `mcp.CallToolResult`: the serialized content list and the
server-reported error flag. -/
structure CallToolResult where
  content : String := ""
  isError : Bool := false
deriving Repr, DecidableEq, Inhabited

def objWrap (s : String) : String := "\x7b" ++ s ++ "\x7d"

def joinComma : List String → String
  | [] => ""
  | [s] => s
  | s :: rest => s ++ "," ++ joinComma rest

/-- `json.Marshal` of a `[]mcp.Content` holding text contents. -/
def marshalMcpContents (cs : List McpContent) : String :=
  "[" ++ joinComma (cs.map fun c =>
    objWrap ("\"type\":" ++ jsonQuote c.type ++
      (if c.text = "" then "" else ",\"text\":" ++ jsonQuote c.text))) ++ "]"

/-- `callToolError`: wraps an error message as a one-element text content
list and marshals it. -/
def callToolError (msg : String) : String :=
  marshalMcpContents [{ type := "text", text := msg }]

/-- `Main.callTool`: look the tool up in the registry's tool map and
dispatch to the owning client. -/
def callTool (toolsMap : List (String × Nat))
    (clients : Nat → CallToolParams → Except String CallToolResult)
    (params : CallToolParams) : String × Bool :=
  match assocFind params.name toolsMap with
  | none => (callToolError ("tool " ++ params.name ++ " is not found"), false)
  | some clientIdx =>
    match clients clientIdx params with
    | .error e => (callToolError ("tool call failed: " ++ e), false)
    | .ok toolRes => (toolRes.content, !toolRes.isError)

/-! ## Anthropic adapter (`internal/services/anthropic.go`)

The SSE events carry their already-unmarshaled payloads; a `none`
payload models data that `json.Unmarshal` rejects.  The network side of
`doRequest` (request marshaling plus HTTP) is a parameter: an error
string or the event list of the response body. -/

inductive AnthEvent where
  | errorEv (payload : Option (String × String))
  | messageStop
  | blockStart (payload : Option (String × String × String))
  | blockDelta (payload : Option (String × String))
  | blockStop
  | otherEv
  | readErr (msg : String)
deriving Repr, DecidableEq, Inhabited

/-- The streaming-assembly state of `Anthropic.Chat`. -/
structure AnthState where
  isToolUse : Bool := false
  inputJSON : String := ""
  toolContent : Content := { type := .callTool }
deriving Repr, DecidableEq, Inhabited

/-- The SSE event loop of `Anthropic.Chat`: yields text deltas and
assembled tool calls, terminating on the first error. -/
def anthropicRun (st : AnthState) : List AnthEvent → List (Content × Option String)
  | [] => []
  | ev :: evs =>
    match ev with
    | .readErr e => [(default, some ("error reading response: " ++ e))]
    | .errorEv none => [(default, some "error unmarshaling error")]
    | .errorEv (some (t, m)) => [(default, some ("anthropic error " ++ t ++ ": " ++ m))]
    | .messageStop => []
    | .blockStart none => [(default, some "error unmarshaling block start")]
    | .blockStart (some (blockType, blockId, blockName)) =>
      if blockType ≠ "tool_use" then anthropicRun st evs
      else
        anthropicRun { st with
          isToolUse := true,
          toolContent := { st.toolContent with toolName := blockName, callToolID := blockId } } evs
    | .blockDelta none => [(default, some "error unmarshaling block delta")]
    | .blockDelta (some (txt, frag)) =>
      if st.isToolUse then anthropicRun { st with inputJSON := st.inputJSON ++ frag } evs
      else ({ type := .text, text := txt }, none) :: anthropicRun st evs
    | .blockStop =>
      if st.isToolUse then
        let ij := if st.inputJSON = "" then "{}" else st.inputJSON
        let tc := { st.toolContent with toolInput := ij }
        (tc, none) :: anthropicRun { st with isToolUse := false, inputJSON := "", toolContent := tc } evs
      else anthropicRun st evs
    | .otherEv => anthropicRun st evs

/-- The history-translation failure of `Anthropic.doRequest`: the first
user message whose content list is not a singleton aborts the request
before any network activity. -/
def anthropicTranslateErr : List Message → Option String
  | [] => none
  | m :: ms =>
    if m.role = "user" && m.contents.length ≠ 1 then
      some ("user message should only contain one content, got " ++ toString m.contents.length)
    else anthropicTranslateErr ms

/-- `Anthropic.Chat` as a function of the history and the network
outcome (`net`): the full list of pairs the iterator yields. -/
def anthropicChat (messages : List Message) (net : Except String (List AnthEvent)) :
    List (Content × Option String) :=
  match anthropicTranslateErr messages with
  | some e => [(default, some ("error sending request: " ++ e))]
  | none =>
    match net with
    | .error e => [(default, some ("error sending request: " ++ e))]
    | .ok evs => anthropicRun {} evs

/-! ## Ollama adapter (`internal/services/ollama.go`)

`api.ToolCall` arguments arrive as a decoded map, which the adapter
re-serializes; the serialized form is kept directly (marshal of a
decoded map cannot fail).  The network side is the list of streamed
`api.ChatResponse` values followed by the final error of
`client.Chat`. -/

structure OllamaToolCall where
  name : String := ""
  argumentsJSON : String := "{}"
deriving Repr, DecidableEq, Inhabited

structure OllamaChatResponse where
  content : String := ""
  toolCalls : List OllamaToolCall := []
deriving Repr, DecidableEq, Inhabited

/-- An `mcp.Tool` as the adapters consume it. -/
structure McpTool where
  name : String := ""
  description : String := ""
  inputSchema : String := "\x7b\x7d"
deriving Repr, DecidableEq, Inhabited

/-- Per-content translation failures of `ollamaMessages` on a non-user
message (unmarshaling a tool call's raw input into a map). -/
def ollamaContentErr : List Content → Option String
  | [] => none
  | c :: cs =>
    match c.type with
    | .callTool =>
      if jsonObjOrNull c.toolInput then ollamaContentErr cs
      else some "error unmarshaling tool input"
    | _ => ollamaContentErr cs

/-- The failure outcome of `ollamaMessages`. -/
def ollamaMessagesErr : List Message → Option String
  | [] => none
  | m :: ms =>
    if m.role = "user" then
      if m.contents.length ≠ 1 then
        some ("user message should only contain one content, got " ++ toString m.contents.length)
      else ollamaMessagesErr ms
    else
      match ollamaContentErr m.contents with
      | some e => some e
      | none => ollamaMessagesErr ms

/-- The tool-schema unmarshal check in `Ollama.Chat` (the first schema
that does not unmarshal into the parameter struct aborts the stream). -/
def ollamaToolsErr : List McpTool → Option String
  | [] => none
  | t :: ts =>
    if jsonObjOrNull t.inputSchema then ollamaToolsErr ts
    else some "error unmarshaling tool input schema"

/-- The yields of one `api.ChatResponse` callback invocation: a text
content when non-empty, then the first tool call (extra ones are logged
and dropped). -/
def ollamaRespYields (r : OllamaChatResponse) : List (Content × Option String) :=
  (if r.content ≠ "" then [({ type := .text, text := r.content }, none)] else []) ++
  (match r.toolCalls with
   | [] => []
   | tc :: _ => [({ type := .callTool, toolName := tc.name, toolInput := tc.argumentsJSON }, none)])

/-- `Ollama.Chat` as a function of the history, tool list and network
outcome: the full list of pairs the iterator yields. -/
def ollamaChat (messages : List Message) (tools : List McpTool)
    (net : List OllamaChatResponse × Option String) : List (Content × Option String) :=
  match ollamaMessagesErr messages with
  | some e => [(default, some ("error creating ollama messages: " ++ e))]
  | none =>
    match ollamaToolsErr tools with
    | some e => [(default, some e)]
    | none =>
      (net.1.map ollamaRespYields).flatten ++
      (match net.2 with
       | some e => [(default, some ("error sending request: " ++ e))]
       | none => [])

end MWU

namespace MWU

/-! ## Conversation engine (`internal/handlers/chat.go`: `Main.chat`)

The engine is the loop that drives a provider stream, persists the
working assistant message after every consumed pair, publishes the
rendered contents on the per-message topic, and dispatches tool calls.
The provider is a function from the current history to the pairs its
iterator yields; the outer loop is fuel-bounded.  The trace records
store writes and broker publishes; a `publish c` event stands for
publishing `models.RenderContents c` (rendering is a total function of
the content list, so the snapshot identifies the published data). -/

inductive Ev where
  | write (m : Message)
  | writeFail (m : Message)
  | publish (c : List Content)
  | publishErr (e : String)
  | closeMsg
deriving Repr, DecidableEq

inductive TurnOut where
  | aborted
  | ended (calledTool : Bool)
deriving Repr, DecidableEq

/-- The local state of `Main.chat`: the store, the working assistant
message, the Go `contentIdx` cursor (starts at `-1`), the history to
re-enter the provider with, and the per-turn bad-tool-input flags. -/
structure EngineSt where
  db : BoltDB := {}
  chatID : String := ""
  messages : List Message := []
  aiMsg : Message := {}
  contentIdx : Int := -1
  badFlag : Bool := false
  badInput : String := "{}"
deriving Repr, DecidableEq

def modifyAt (l : List α) (i : Nat) (f : α → α) : List α :=
  match l, i with
  | [], _ => []
  | x :: xs, 0 => f x :: xs
  | x :: xs, i + 1 => x :: modifyAt xs i f

def setLast (x : α) : List α → List α
  | [] => []
  | [_] => [x]
  | y :: ys => y :: setLast x ys

/-- `aiMsg.Contents[contentIdx].Text += content.Text`. -/
def msgAppendText (m : Message) (i : Nat) (txt : String) : Message :=
  { m with contents := modifyAt m.contents i (fun c => { c with text := c.text ++ txt }) }

/-- The mutation of the switch statement for one non-error pair (the
`ToolResult` case returns before this point and is handled by the
caller); returns the new state and the `callTool` flag. -/
def consumeOne (st : EngineSt) (content : Content) : EngineSt × Bool :=
  match content.type with
  | .text =>
    ({ st with aiMsg := msgAppendText st.aiMsg st.contentIdx.toNat content.text }, false)
  | .callTool =>
    let (c1, st1) :=
      if jsonValid content.toolInput then (content, st)
      else ({ content with toolInput := "{}" },
            { st with badFlag := true, badInput := content.toolInput })
    ({ st1 with
        aiMsg := { st1.aiMsg with contents := st1.aiMsg.contents ++ [c1] },
        contentIdx := st1.contentIdx + 1 }, true)
  | _ => (st, false)

/-- The inner `for content, err := range it` loop of `Main.chat`:
process pairs until an error, a `ToolResult`, a failed store write, the
`callTool` break, or the end of the stream. -/
def runItems (st : EngineSt) : List (Content × Option String) → EngineSt × List Ev × TurnOut
  | [] => (st, [], .ended false)
  | (_, some e) :: _ => (st, [.publishErr e], .aborted)
  | (content, none) :: rest =>
    if content.type = ContentType.toolResult then (st, [], .aborted)
    else
      let (st1, didCallTool) := consumeOne st content
      match BoltDB.UpdateMessage st1.db st1.chatID st1.aiMsg with
      | (some _, _) => (st1, [.writeFail st1.aiMsg], .aborted)
      | (none, db1) =>
        let st2 := { st1 with db := db1 }
        if didCallTool then (st2, [.write st1.aiMsg, .publish st1.aiMsg.contents], .ended true)
        else
          let next := runItems st2 rest
          (next.1, .write st1.aiMsg :: .publish st1.aiMsg.contents :: next.2.1, next.2.2)

/-- The code after the inner loop when it broke on a tool call: build
the `ToolResult` content (synthesized for recorded bad input, dispatched
otherwise), append it, and rewrite the history's last entry. -/
def postTurn (toolsMap : List (String × Nat))
    (clients : Nat → CallToolParams → Except String CallToolResult)
    (st : EngineSt) : EngineSt :=
  let callToolContent := st.aiMsg.contents.getLastD default
  let base : Content := { type := .toolResult, callToolID := callToolContent.callToolID }
  let trc :=
    if st.badFlag then
      { base with
          toolResult := callToolError ("tool input " ++ st.badInput ++ " is not valid json"),
          callToolFailed := true }
    else
      let (toolResult, success) := callTool toolsMap clients
        { name := callToolContent.toolName, arguments := callToolContent.toolInput }
      { base with toolResult := toolResult, callToolFailed := !success }
  let aiMsg2 := { st.aiMsg with contents := st.aiMsg.contents ++ [trc] }
  { st with aiMsg := aiMsg2, contentIdx := st.contentIdx + 1,
            messages := setLast aiMsg2 st.messages }

/-- The start of one outer-loop iteration: append an empty text cursor
and reset the per-turn flags. -/
def turnStart (st : EngineSt) : EngineSt :=
  { st with
      aiMsg := { st.aiMsg with contents := st.aiMsg.contents ++ [{ type := .text, text := "" }] },
      contentIdx := st.contentIdx + 1,
      badFlag := false,
      badInput := "{}" }

/-- The outer `for` loop of `Main.chat`, fuel-bounded: each iteration
opens a fresh provider stream on the current history. -/
def chatLoop (toolsMap : List (String × Nat))
    (clients : Nat → CallToolParams → Except String CallToolResult)
    (llm : List Message → List (Content × Option String)) :
    Nat → EngineSt → EngineSt × List Ev
  | 0, st => (st, [])
  | fuel + 1, st =>
    let items := llm st.messages
    let step := runItems (turnStart st) items
    match step.2.2 with
    | .aborted => (step.1, step.2.1)
    | .ended false => (step.1, step.2.1)
    | .ended true =>
      let next := chatLoop toolsMap clients llm fuel (postTurn toolsMap clients step.1)
      (next.1, step.2.1 ++ next.2)

/-- `Main.chat` composed: the deferred `closeMessage` publish always
ends the trace. -/
def chatRun (toolsMap : List (String × Nat))
    (clients : Nat → CallToolParams → Except String CallToolResult)
    (llm : List Message → List (Content × Option String))
    (fuel : Nat) (db : BoltDB) (chatID : String) (messages : List Message) :
    EngineSt × List Ev :=
  let st : EngineSt :=
    { db := db, chatID := chatID, messages := messages,
      aiMsg := messages.getLastD default, contentIdx := -1 }
  let res := chatLoop toolsMap clients llm fuel st
  (res.1, res.2 ++ [.closeMsg])

/-! ## Chat continuation (`Main.continueChat`, `Main.HandleChats`) -/

inductive StoreOp where
  | updateMsg (chatID : String) (m : Message)
  | addMsg (chatID : String) (m : Message)
deriving Repr, DecidableEq

/-- Whether the last stored message of a chat is an assistant message
with a dangling trailing `CallTool`. -/
def danglingCallTool (ms : List Message) : Bool :=
  match ms.getLast? with
  | none => false
  | some lm =>
    lm.role == "assistant" && !lm.contents.isEmpty &&
      ((lm.contents.getLastD default).type == ContentType.callTool)

/-- `Main.continueChat`: repair a chat whose last stored message ends in
a dangling `CallTool` by invoking the tool now and persisting the
appended `ToolResult`; any other shape is left untouched.  The returned
list is the trace of store mutations issued. -/
def continueChat (toolsMap : List (String × Nat))
    (clients : Nat → CallToolParams → Except String CallToolResult)
    (db : BoltDB) (chatID : String) : Except String BoltDB × List StoreOp :=
  let messages := db.Messages chatID
  if messages.isEmpty then (.ok db, [])
  else
    let lastMessage := messages.getLastD default
    if lastMessage.role ≠ "assistant" then (.ok db, [])
    else if lastMessage.contents.isEmpty then (.ok db, [])
    else if (lastMessage.contents.getLastD default).type ≠ ContentType.callTool then (.ok db, [])
    else
      let lastC := lastMessage.contents.getLastD default
      let res := callTool toolsMap clients
        { name := lastC.toolName, arguments := lastC.toolInput }
      let repaired := { lastMessage with contents := lastMessage.contents ++
        [{ type := .toolResult, callToolID := lastC.callToolID,
           toolResult := res.1, callToolFailed := !res.2 }] }
      let upd := BoltDB.UpdateMessage db chatID repaired
      match upd.1 with
      | some e => (.error ("failed to update message: " ++ e), [StoreOp.updateMsg chatID repaired])
      | none => (.ok upd.2, [StoreOp.updateMsg chatID repaired])

/-- The store interactions of `Main.HandleChats` on a POST with an
existing `chat_id`: run the continuation repair, then append the user
message and the empty assistant placeholder.  An error aborts the
handler (HTTP 500) at that point. -/
def handleExistingPost (toolsMap : List (String × Nat))
    (clients : Nat → CallToolParams → Except String CallToolResult)
    (db : BoltDB) (chatID : String) (userMsg aiMsg : Message) :
    Except String BoltDB × List StoreOp :=
  match continueChat toolsMap clients db chatID with
  | (.error e, tr) => (.error e, tr)
  | (.ok db1, tr) =>
    let ua := BoltDB.AddMessage db1 chatID userMsg
    match ua.2.1 with
    | some e => (.error e, tr ++ [.addMsg chatID userMsg])
    | none =>
      let aa := BoltDB.AddMessage ua.2.2 chatID aiMsg
      match aa.2.1 with
      | some e => (.error e, tr ++ [.addMsg chatID userMsg, .addMsg chatID aiMsg])
      | none => (.ok aa.2.2, tr ++ [.addMsg chatID userMsg, .addMsg chatID aiMsg])

/-! ## Trace predicates -/

def startsPub : List Ev → Bool
  | Ev.publish _ :: _ => true
  | _ => false

/-- Every `publish` in the trace is immediately preceded by a `write` of
the same content snapshot. -/
def pubAfterWrite : List Ev → Bool
  | [] => true
  | Ev.write m :: Ev.publish c :: rest => (m.contents == c) && pubAfterWrite rest
  | Ev.publish _ :: _ => false
  | _ :: rest => pubAfterWrite rest

/-- Adapter-stream shape: every pair with no error carries a `Text` or
`CallTool` content, and a pair with an error is the last element. -/
def wellFormedYields : List (Content × Option String) → Bool
  | [] => true
  | (c, none) :: rest =>
    (c.type == ContentType.text || c.type == ContentType.callTool) && wellFormedYields rest
  | (_, some _) :: rest => rest.isEmpty

end MWU

namespace MWU

/-! ## C1: tool-not-found payload -/

/-- Claim C1, counterexample: for the unknown tool `ghost`, `callTool`
does return `success=false`, but the JSON body is not an object with a
non-empty `error` field (it is a `[]mcp.Content` array), and in
particular differs from the claimed payload shape. -/
theorem c1_counterexample :
    (callTool [] (fun _ _ => Except.ok {}) { name := "ghost", arguments := "{}" }).2 = false ∧
    hasErrorField (callTool [] (fun _ _ => Except.ok {}) { name := "ghost", arguments := "{}" }).1 = false ∧
    (callTool [] (fun _ _ => Except.ok {}) { name := "ghost", arguments := "{}" }).1 =
      "[\x7b\"type\":\"text\",\"text\":\"tool ghost is not found\"\x7d]" := by
  refine ⟨rfl, by decide, by decide⟩

/-- Claim C1 (amended): for every tool name missing from the registry's
tool map, `callTool` returns `success=false` and a JSON body that is a
one-element `mcp.Content` array whose text names the missing tool. -/
theorem c1_tool_not_found (toolsMap : List (String × Nat))
    (clients : Nat → CallToolParams → Except String CallToolResult)
    (params : CallToolParams)
    (h : assocFind params.name toolsMap = none) :
    callTool toolsMap clients params =
      (callToolError ("tool " ++ params.name ++ " is not found"), false) := by
  unfold callTool
  rw [h]

/-- Witness for `c1_tool_not_found` at the tool name `ghost` and an
empty registry. -/
theorem c1_witness :
    assocFind "ghost" ([] : List (String × Nat)) = none ∧
    callTool [] (fun _ _ => Except.ok {}) { name := "ghost", arguments := "" } =
      (callToolError "tool ghost is not found", false) :=
  ⟨rfl, c1_tool_not_found [] (fun _ _ => Except.ok {}) { name := "ghost", arguments := "" } rfl⟩

/-! ## C2: lexicographic monotonicity of assigned ids -/

/-- Iterate `AddChat` with a fixed candidate id, collecting the ids the
store returns, in call order. -/
def addChatsIter (c : Chat) : Nat → BoltDB × List String
  | 0 => ({}, [])
  | n + 1 =>
    let (db, ids) := addChatsIter c n
    let (newID, db1) := db.AddChat c
    (db1, ids ++ [newID])

/-- Iterate `AddMessage` with a fixed candidate id, collecting the ids
the store returns, in call order. -/
def addMsgsIter (db0 : BoltDB) (chatID : String) (m : Message) : Nat → BoltDB × List String
  | 0 => (db0, [])
  | n + 1 =>
    let (db, ids) := addMsgsIter db0 chatID m n
    let (newID, _, db1) := db.AddMessage chatID m
    (db1, ids ++ [newID])

/-- Claim C2 fails on the code: after nine prior insertions the tenth
id sorts lexicographically *before* the ninth, for both `AddChat` and
`AddMessage` (`"10-c" < "9-c"` in byte order because `'1' < '9'`). -/
theorem c2_ids_not_lex_monotonic :
    ((addChatsIter { id := "c" } 10).2.get? 8 = some "9-c" ∧
     (addChatsIter { id := "c" } 10).2.get? 9 = some "10-c" ∧
     keyLt "10-c" "9-c" = true ∧ keyLt "9-c" "10-c" = false) ∧
    ((addMsgsIter { msgBuckets := [("chat-x", {})] } "x" { id := "m" } 10).2.get? 8 = some "9-m" ∧
     (addMsgsIter { msgBuckets := [("chat-x", {})] } "x" { id := "m" } 10).2.get? 9 = some "10-m" ∧
     keyLt "10-m" "9-m" = true ∧ keyLt "9-m" "10-m" = false) := by
  decide

/-! ## C3: store round-trip order -/

/-- Iterate `AddMessage` with distinct text payloads, collecting the
inserted (final) message values in call order. -/
def addDistinctMsgs (db0 : BoltDB) (chatID : String) : Nat → BoltDB × List Message
  | 0 => (db0, [])
  | n + 1 =>
    let (db, ms) := addDistinctMsgs db0 chatID n
    let m : Message := { id := "m", role := "assistant",
                         contents := [{ type := .text, text := toString (n + 1) }] }
    let (newID, _, db1) := db.AddMessage chatID m
    (db1, ms ++ [{ m with id := newID }])

/-- Claim C3 fails on the code: after ten `AddMessage` calls on one
chat (no updates), `Messages` returns exactly the stored values but in
byte order of the ids, which is no longer the insertion order — the
tenth message is listed second. -/
theorem c3_list_messages_order_breaks :
    (((addDistinctMsgs { msgBuckets := [("chat-x", {})] } "x" 10).1.Messages "x").map (·.id) =
      ["1-m", "10-m", "2-m", "3-m", "4-m", "5-m", "6-m", "7-m", "8-m", "9-m"]) ∧
    ((addDistinctMsgs { msgBuckets := [("chat-x", {})] } "x" 10).1.Messages "x" ≠
      (addDistinctMsgs { msgBuckets := [("chat-x", {})] } "x" 10).2) ∧
    (∀ m ∈ (addDistinctMsgs { msgBuckets := [("chat-x", {})] } "x" 10).1.Messages "x",
      m ∈ (addDistinctMsgs { msgBuckets := [("chat-x", {})] } "x" 10).2) := by
  decide

/-! ## C9: operations on a missing message partition -/

/-- Claim C9: when a chat's message bucket does not exist, `AddMessage`
returns an empty id and no error while leaving the store unchanged, and
`UpdateMessage` returns no error while leaving the store unchanged. -/
theorem c9_missing_partition (db : BoltDB) (chatID : String) (m : Message)
    (h : assocFind (messageBucketName chatID) db.msgBuckets = none) :
    BoltDB.AddMessage db chatID m = ("", none, db) ∧
    BoltDB.UpdateMessage db chatID m = (none, db) := by
  unfold BoltDB.AddMessage BoltDB.UpdateMessage
  rw [h]
  exact ⟨rfl, rfl⟩

/-- Witness for `c9_missing_partition` on an empty store and the chat id
`zzz`. -/
theorem c9_witness :
    assocFind (messageBucketName "zzz") (BoltDB.msgBuckets {}) = none ∧
    BoltDB.AddMessage {} "zzz" { id := "m" } = ("", none, {}) ∧
    BoltDB.UpdateMessage {} "zzz" { id := "m" } = (none, {}) := by
  refine ⟨rfl, ?_, ?_⟩
  · exact (c9_missing_partition {} "zzz" { id := "m" } rfl).1
  · exact (c9_missing_partition {} "zzz" { id := "m" } rfl).2

end MWU

namespace MWU

/-! ## C7: empty tool-argument substitution (Anthropic assembly) -/

def concatAll : List String → String
  | [] => ""
  | s :: ss => s ++ concatAll ss

/-- While in a tool-use block, a run of `content_block_delta` events
accumulates the concatenation of the partial-JSON fragments. -/
theorem anthropicRun_deltas (frags : List String) : ∀ (st : AnthState) (rest : List AnthEvent),
    st.isToolUse = true →
    anthropicRun st (frags.map (fun f => AnthEvent.blockDelta (some ("", f))) ++ rest) =
      anthropicRun { st with inputJSON := st.inputJSON ++ concatAll frags } rest := by
  induction frags with
  | nil =>
    intro st rest _
    simp only [List.map_nil, List.nil_append, concatAll, String.append_empty]
  | cons f fs ih =>
    intro st rest h
    rw [List.map_cons, List.cons_append]
    have step : anthropicRun st (AnthEvent.blockDelta (some ("", f)) ::
        (fs.map (fun g => AnthEvent.blockDelta (some ("", g))) ++ rest)) =
        anthropicRun { st with inputJSON := st.inputJSON ++ f }
          (fs.map (fun g => AnthEvent.blockDelta (some ("", g))) ++ rest) := by
      simp [anthropicRun, h]
    rw [step, ih { st with inputJSON := st.inputJSON ++ f } rest h]
    simp only [concatAll, String.append_assoc]

/-- Claim C7: a tool-use block whose accumulated argument fragments
concatenate to the empty string yields a `CallTool` whose input is the
substituted `"{}"`. -/
theorem c7_empty_args_substitution (blockId blockName : String) (frags : List String)
    (h : concatAll frags = "") :
    anthropicRun {} (AnthEvent.blockStart (some ("tool_use", blockId, blockName)) ::
        (frags.map (fun f => AnthEvent.blockDelta (some ("", f))) ++ [AnthEvent.blockStop])) =
      [({ type := .callTool, toolName := blockName, callToolID := blockId,
          toolInput := "{}" }, none)] := by
  have h1 : anthropicRun {} (AnthEvent.blockStart (some ("tool_use", blockId, blockName)) ::
      (frags.map (fun f => AnthEvent.blockDelta (some ("", f))) ++ [AnthEvent.blockStop])) =
      anthropicRun { isToolUse := true,
                     toolContent := { type := .callTool, toolName := blockName, callToolID := blockId } }
        (frags.map (fun f => AnthEvent.blockDelta (some ("", f))) ++ [AnthEvent.blockStop]) := by
    simp [anthropicRun]
  rw [h1, anthropicRun_deltas frags _ _ rfl, h]
  rfl

/-- Witness for `c7_empty_args_substitution` with two empty fragments. -/
theorem c7_witness :
    concatAll ["", ""] = "" ∧
    anthropicRun {} (AnthEvent.blockStart (some ("tool_use", "id9", "clock")) ::
        ((["", ""].map (fun f => AnthEvent.blockDelta (some ("", f)))) ++ [AnthEvent.blockStop])) =
      [({ type := .callTool, toolName := "clock", callToolID := "id9",
          toolInput := "{}" }, none)] :=
  ⟨rfl, c7_empty_args_substitution "id9" "clock" ["", ""] rfl⟩

/-! ## C8: shape of the adapter streams -/

/-- Every pair carries no error and a `Text` or `CallTool` content. -/
def noErrGood : List (Content × Option String) → Bool
  | [] => true
  | (c, none) :: rest =>
    (c.type == ContentType.text || c.type == ContentType.callTool) && noErrGood rest
  | (_, some _) :: _ => false

theorem wellFormed_append (l1 l2 : List (Content × Option String))
    (h1 : noErrGood l1 = true) (h2 : wellFormedYields l2 = true) :
    wellFormedYields (l1 ++ l2) = true := by
  induction l1 with
  | nil => simpa using h2
  | cons p rest ih =>
    obtain ⟨c, o⟩ := p
    cases o with
    | none =>
      simp only [noErrGood, Bool.and_eq_true] at h1
      simp only [List.cons_append, wellFormedYields, Bool.and_eq_true]
      exact ⟨h1.1, ih h1.2⟩
    | some e => simp [noErrGood] at h1

theorem anthropicRun_wellFormed (evs : List AnthEvent) :
    ∀ st : AnthState, st.toolContent.type = ContentType.callTool →
      wellFormedYields (anthropicRun st evs) = true := by
  induction evs with
  | nil => intro st _; rfl
  | cons ev evs ih =>
    intro st h
    cases ev with
    | readErr e => rfl
    | errorEv p => cases p <;> rfl
    | messageStop => rfl
    | blockStart p =>
      cases p with
      | none => rfl
      | some payload =>
        obtain ⟨bt, bid, bnm⟩ := payload
        simp only [anthropicRun]
        split
        · exact ih st h
        · exact ih _ h
    | blockDelta p =>
      cases p with
      | none => rfl
      | some payload =>
        obtain ⟨txt, frag⟩ := payload
        simp only [anthropicRun]
        split
        · exact ih _ h
        · simp only [wellFormedYields, Bool.and_eq_true]
          exact ⟨by decide, ih st h⟩
    | blockStop =>
      simp only [anthropicRun]
      split
      · simp only [wellFormedYields, Bool.and_eq_true]
        constructor
        · simp [h]
        · exact ih _ h
      · exact ih st h
    | otherEv => exact ih st h

theorem ollamaRespYields_noErrGood (r : OllamaChatResponse) :
    noErrGood (ollamaRespYields r) = true := by
  unfold ollamaRespYields
  by_cases hc : r.content = ""
  · simp only [hc]
    cases r.toolCalls <;> simp [noErrGood]
  · rw [if_pos (by simpa using hc)]
    cases r.toolCalls <;> simp [noErrGood]

theorem noErrGood_append (l1 l2 : List (Content × Option String))
    (h1 : noErrGood l1 = true) (h2 : noErrGood l2 = true) :
    noErrGood (l1 ++ l2) = true := by
  induction l1 with
  | nil => simpa using h2
  | cons p rest ih =>
    obtain ⟨c, o⟩ := p
    cases o with
    | none =>
      simp only [noErrGood, Bool.and_eq_true] at h1 ⊢
      exact ⟨h1.1, ih h1.2⟩
    | some e => simp [noErrGood] at h1

theorem ollamaResponses_noErrGood (rs : List OllamaChatResponse) :
    noErrGood (rs.map ollamaRespYields).flatten = true := by
  induction rs with
  | nil => rfl
  | cons r rs ih =>
    simp only [List.map_cons, List.flatten_cons]
    exact noErrGood_append _ _ (ollamaRespYields_noErrGood r) ih

/-- Claim C8: for every history, tool list and network outcome, the
Anthropic and Ollama streams yield only `Text`/`CallTool` contents on
error-free pairs, and a pair carrying an error terminates the stream. -/
theorem c8_stream_shape :
    (∀ (messages : List Message) (net : Except String (List AnthEvent)),
        wellFormedYields (anthropicChat messages net) = true) ∧
    (∀ (messages : List Message) (tools : List McpTool)
        (net : List OllamaChatResponse × Option String),
        wellFormedYields (ollamaChat messages tools net) = true) := by
  constructor
  · intro messages net
    unfold anthropicChat
    cases anthropicTranslateErr messages with
    | some e => rfl
    | none =>
      cases net with
      | error e => rfl
      | ok evs => exact anthropicRun_wellFormed evs {} rfl
  · intro messages tools net
    unfold ollamaChat
    cases ollamaMessagesErr messages with
    | some e => rfl
    | none =>
      cases ollamaToolsErr tools with
      | some e => rfl
      | none =>
        refine wellFormed_append _ _ (ollamaResponses_noErrGood net.1) ?_
        cases net.2 <;> rfl

end MWU

namespace MWU

/-! ## C10: histories with a malformed user message -/

theorem anthropicTranslateErr_isSome (ms : List Message)
    (h : ∃ m ∈ ms, m.role = "user" ∧ m.contents.length ≠ 1) :
    ∃ e, anthropicTranslateErr ms = some e := by
  induction ms with
  | nil => obtain ⟨m, hm, _⟩ := h; cases hm
  | cons m0 ms ih =>
    obtain ⟨m, hm, hrole, hlen⟩ := h
    unfold anthropicTranslateErr
    by_cases hc : (m0.role = "user" && m0.contents.length ≠ 1) = true
    · rw [if_pos hc]; exact ⟨_, rfl⟩
    · rw [if_neg hc]
      rcases List.mem_cons.mp hm with heq | htail
      · subst heq
        exact absurd (by simp [hrole, hlen]) hc
      · exact ih ⟨m, htail, hrole, hlen⟩

theorem ollamaMessagesErr_isSome (ms : List Message)
    (h : ∃ m ∈ ms, m.role = "user" ∧ m.contents.length ≠ 1) :
    ∃ e, ollamaMessagesErr ms = some e := by
  induction ms with
  | nil => obtain ⟨m, hm, _⟩ := h; cases hm
  | cons m0 ms ih =>
    obtain ⟨m, hm, hrole, hlen⟩ := h
    unfold ollamaMessagesErr
    by_cases hu : m0.role = "user"
    · rw [if_pos hu]
      by_cases hl : m0.contents.length ≠ 1
      · rw [if_pos hl]; exact ⟨_, rfl⟩
      · rw [if_neg hl]
        rcases List.mem_cons.mp hm with heq | htail
        · subst heq; exact absurd hlen hl
        · exact ih ⟨m, htail, hrole, hlen⟩
    · rw [if_neg hu]
      rcases List.mem_cons.mp hm with heq | htail
      · subst heq; exact absurd hrole hu
      · cases hce : ollamaContentErr m0.contents with
        | some e => exact ⟨e, rfl⟩
        | none => exact ih ⟨m, htail, hrole, hlen⟩

/-- Claim C10: a history containing a user message whose content list is
not a singleton makes both adapters yield exactly one pair, carrying a
non-nil error and no content, for every network outcome (the history is
rejected before the provider is contacted). -/
theorem c10_bad_user_message :
    (∀ (messages : List Message) (net : Except String (List AnthEvent)),
        (∃ m ∈ messages, m.role = "user" ∧ m.contents.length ≠ 1) →
        ∃ e, anthropicChat messages net = [(default, some e)]) ∧
    (∀ (messages : List Message) (tools : List McpTool)
        (net : List OllamaChatResponse × Option String),
        (∃ m ∈ messages, m.role = "user" ∧ m.contents.length ≠ 1) →
        ∃ e, ollamaChat messages tools net = [(default, some e)]) := by
  constructor
  · intro messages net h
    obtain ⟨e, he⟩ := anthropicTranslateErr_isSome messages h
    refine ⟨"error sending request: " ++ e, ?_⟩
    unfold anthropicChat
    rw [he]
  · intro messages tools net h
    obtain ⟨e, he⟩ := ollamaMessagesErr_isSome messages h
    refine ⟨"error creating ollama messages: " ++ e, ?_⟩
    unfold ollamaChat
    rw [he]

/-- Witness for `c10_bad_user_message`: a single user message with an
empty content list. -/
theorem c10_witness :
    (∃ e, anthropicChat [{ role := "user", contents := [] }] (.ok []) = [(default, some e)]) ∧
    (∃ e, ollamaChat [{ role := "user", contents := [] }] [] ([], none) = [(default, some e)]) := by
  constructor
  · exact c10_bad_user_message.1 [{ role := "user", contents := [] }] (.ok [])
      ⟨{ role := "user", contents := [] }, by simp, rfl, by decide⟩
  · exact c10_bad_user_message.2 [{ role := "user", contents := [] }] [] ([], none)
      ⟨{ role := "user", contents := [] }, by simp, rfl, by decide⟩

end MWU

namespace MWU

/-! ## C6: every delta is persisted before it is published -/

theorem runItems_paw (items : List (Content × Option String)) :
    ∀ (st : EngineSt) (t2 : List Ev), pubAfterWrite t2 = true → startsPub t2 = false →
      pubAfterWrite ((runItems st items).2.1 ++ t2) = true ∧
      startsPub ((runItems st items).2.1 ++ t2) = false := by
  induction items with
  | nil => intro st t2 h1 h2; exact ⟨h1, h2⟩
  | cons p rest ih =>
    intro st t2 h1 h2
    obtain ⟨content, o⟩ := p
    cases o with
    | some e =>
      simp only [runItems, List.cons_append, List.nil_append]
      exact ⟨by simp [pubAfterWrite, h1], by simp [startsPub]⟩
    | none =>
      by_cases hty : content.type = ContentType.toolResult
      · simp only [runItems, if_pos hty, List.nil_append]
        exact ⟨h1, h2⟩
      · rcases hc : consumeOne st content with ⟨st1, didCallTool⟩
        rcases hu : BoltDB.UpdateMessage st1.db st1.chatID st1.aiMsg with ⟨uerr, db1⟩
        cases uerr with
        | some e =>
          simp only [runItems, if_neg hty, hc, hu, List.cons_append, List.nil_append]
          exact ⟨by simp [pubAfterWrite, h1], by simp [startsPub]⟩
        | none =>
          cases didCallTool with
          | true =>
            simp only [runItems, if_neg hty, hc, hu, List.cons_append, List.nil_append]
            refine ⟨?_, by simp [startsPub]⟩
            simp [pubAfterWrite, h1]
          | false =>
            have := ih { st1 with db := db1 } t2 h1 h2
            simp only [runItems, if_neg hty, hc, hu, List.cons_append]
            rcases hr : runItems { st1 with db := db1 } rest with ⟨st3, tr, out⟩
            rw [hr] at this
            simp only at this
            refine ⟨?_, by simp [startsPub]⟩
            simp [pubAfterWrite, this.1]

theorem chatLoop_paw (toolsMap : List (String × Nat))
    (clients : Nat → CallToolParams → Except String CallToolResult)
    (llm : List Message → List (Content × Option String)) :
    ∀ (fuel : Nat) (st : EngineSt) (t2 : List Ev),
      pubAfterWrite t2 = true → startsPub t2 = false →
      pubAfterWrite ((chatLoop toolsMap clients llm fuel st).2 ++ t2) = true ∧
      startsPub ((chatLoop toolsMap clients llm fuel st).2 ++ t2) = false := by
  intro fuel
  induction fuel with
  | zero => intro st t2 h1 h2; exact ⟨h1, h2⟩
  | succ fuel ih =>
    intro st t2 h1 h2
    simp only [chatLoop]
    rcases hr : runItems (turnStart st) (llm st.messages) with ⟨st1, tr, out⟩
    have hri := runItems_paw (llm st.messages) (turnStart st)
    rw [hr] at hri
    simp only at hri
    cases out with
    | aborted => simpa using hri t2 h1 h2
    | ended calledTool =>
      cases calledTool with
      | false => simpa using hri t2 h1 h2
      | true =>
        rcases hcl : chatLoop toolsMap clients llm fuel (postTurn toolsMap clients st1)
          with ⟨st3, tr2⟩
        have hnext := ih (postTurn toolsMap clients st1) t2 h1 h2
        rw [hcl] at hnext
        simp only at hnext
        simp only [hcl, List.append_assoc]
        exact hri (tr2 ++ t2) hnext.1 hnext.2

/-- Claim C6: in every run of the engine, each `publish` on the
per-message topic is immediately preceded by the successful store write
of the same content snapshot, so the persisted message always covers
what has been published. -/
theorem c6_persist_before_publish (toolsMap : List (String × Nat))
    (clients : Nat → CallToolParams → Except String CallToolResult)
    (llm : List Message → List (Content × Option String))
    (fuel : Nat) (db : BoltDB) (chatID : String) (messages : List Message) :
    pubAfterWrite (chatRun toolsMap clients llm fuel db chatID messages).2 = true := by
  have h2 : (chatRun toolsMap clients llm fuel db chatID messages).2 =
      (chatLoop toolsMap clients llm fuel
        { db := db, chatID := chatID, messages := messages,
          aiMsg := messages.getLastD default, contentIdx := -1 }).2 ++ [Ev.closeMsg] := by
    rcases hcl : chatLoop toolsMap clients llm fuel
        { db := db, chatID := chatID, messages := messages,
          aiMsg := messages.getLastD default, contentIdx := -1 } with ⟨st1, tr⟩
    simp only [chatRun, hcl]
  rw [h2]
  exact (chatLoop_paw toolsMap clients llm fuel
      { db := db, chatID := chatID, messages := messages,
        aiMsg := messages.getLastD default, contentIdx := -1 } [Ev.closeMsg] rfl rfl).1

end MWU

namespace MWU

/-! ## C4: invalid tool input from the provider -/

def c4Content : Content :=
  { type := .callTool, toolName := "clock", toolInput := "notjson", callToolID := "id1" }

def c4LLM : List Message → List (Content × Option String) := fun _ => [(c4Content, none)]

def c4Result : EngineSt :=
  (chatRun [] (fun _ _ => Except.ok {}) c4LLM 1 {} "c"
    [{ id := "1-u", role := "user", contents := [{ type := .text, text := "hi" }] },
     { id := "2-a", role := "assistant" }]).1

/-- Claim C4, counterexample: on a stream emitting a `CallTool` with the
invalid input `notjson`, the engine does append a failed `ToolResult`,
but its body is the `[]mcp.Content` array produced by `callToolError`,
not an object of the shape `\x7b"error": ...\x7d`. -/
theorem c4_counterexample :
    (c4Result.aiMsg.contents.getLastD default).type = ContentType.toolResult ∧
    (c4Result.aiMsg.contents.getLastD default).callToolFailed = true ∧
    hasErrorField (c4Result.aiMsg.contents.getLastD default).toolResult = false ∧
    (c4Result.aiMsg.contents.getLastD default).toolResult ≠
      "\x7b\"error\":\"tool input notjson is not valid json\"\x7d" := by
  exact ⟨rfl, rfl, by decide, by decide⟩

/-- Claim C4 (amended): whenever the provider stream emits a `CallTool`
whose raw input is not valid JSON, the engine persists and publishes the
`CallTool` with its input replaced by `"{}"`, appends a `ToolResult`
with `failed=true` whose body is `callToolError` applied to
`tool input <raw> is not valid json` (a one-element text content array
naming the raw input), and re-enters the provider with the updated
history. -/
theorem c4_bad_tool_input (toolsMap : List (String × Nat))
    (clients : Nat → CallToolParams → Except String CallToolResult)
    (llm : List Message → List (Content × Option String))
    (fuel : Nat) (st : EngineSt) (c : Content) (rest : List (Content × Option String))
    (hty : c.type = ContentType.callTool)
    (hbad : jsonValid c.toolInput = false)
    (hllm : llm st.messages = (c, none) :: rest)
    (hwrite : (BoltDB.UpdateMessage (turnStart st).db (turnStart st).chatID
        { (turnStart st).aiMsg with
            contents := (turnStart st).aiMsg.contents ++ [{ c with toolInput := "{}" }] }).1 = none) :
    ∃ db1 : BoltDB,
      chatLoop toolsMap clients llm (fuel + 1) st =
        (let st0 := turnStart st
         let aiMsg1 := { st0.aiMsg with
           contents := st0.aiMsg.contents ++ [{ c with toolInput := "{}" }] }
         let trc : Content :=
           { type := .toolResult
             callToolID := c.callToolID
             toolResult := callToolError ("tool input " ++ c.toolInput ++ " is not valid json")
             callToolFailed := true }
         let aiMsg2 := { aiMsg1 with contents := aiMsg1.contents ++ [trc] }
         let st2 : EngineSt :=
           { st0 with
             db := db1
             aiMsg := aiMsg2
             contentIdx := st0.contentIdx + 1 + 1
             badFlag := true
             badInput := c.toolInput
             messages := setLast aiMsg2 st0.messages }
         let next := chatLoop toolsMap clients llm fuel st2
         (next.1, Ev.write aiMsg1 :: Ev.publish aiMsg1.contents :: next.2)) := by
  have hcons : consumeOne (turnStart st) c =
      ({ turnStart st with
          aiMsg := { (turnStart st).aiMsg with
            contents := (turnStart st).aiMsg.contents ++ [{ c with toolInput := "{}" }] }
          contentIdx := (turnStart st).contentIdx + 1
          badFlag := true
          badInput := c.toolInput }, true) := by
    simp [consumeOne, hty, hbad]
  rcases hu : BoltDB.UpdateMessage (turnStart st).db (turnStart st).chatID
      { (turnStart st).aiMsg with
          contents := (turnStart st).aiMsg.contents ++ [{ c with toolInput := "{}" }] }
      with ⟨uerr, db1⟩
  rw [hu] at hwrite
  subst hwrite
  refine ⟨db1, ?_⟩
  simp only [] at hcons hu
  have hty2 : ¬ (c.type = ContentType.toolResult) := by rw [hty]; simp
  simp only [chatLoop, hllm]
  simp only [runItems, if_neg hty2, hcons]
  simp only [hu, if_true]
  simp only [postTurn, List.getLastD_concat]
  simp only [if_true]
  simp only [List.cons_append, List.nil_append]

end MWU

namespace MWU

/-- Witness for `c4_bad_tool_input` on the invalid raw input `notjson`
with an empty store, one turn of fuel, and an empty tool registry. -/
theorem c4_witness :
    ∃ db1 : BoltDB,
      chatLoop [] (fun _ _ => Except.ok {}) c4LLM (0 + 1) {} =
        (let st0 := turnStart {}
         let aiMsg1 := { st0.aiMsg with
           contents := st0.aiMsg.contents ++ [{ c4Content with toolInput := "{}" }] }
         let trc : Content :=
           { type := .toolResult
             callToolID := c4Content.callToolID
             toolResult := callToolError ("tool input " ++ c4Content.toolInput ++ " is not valid json")
             callToolFailed := true }
         let aiMsg2 := { aiMsg1 with contents := aiMsg1.contents ++ [trc] }
         let st2 : EngineSt :=
           { st0 with
             db := db1
             aiMsg := aiMsg2
             contentIdx := st0.contentIdx + 1 + 1
             badFlag := true
             badInput := c4Content.toolInput
             messages := setLast aiMsg2 st0.messages }
         let next := chatLoop [] (fun _ _ => Except.ok {}) c4LLM 0 st2
         (next.1, Ev.write aiMsg1 :: Ev.publish aiMsg1.contents :: next.2)) :=
  c4_bad_tool_input [] (fun _ _ => Except.ok {}) c4LLM 0 {} c4Content []
    rfl (by decide) rfl rfl

end MWU

namespace MWU

/-! ## C5: continuation repair on POST to an existing chat -/

/-- A marshalable message is always accepted by `AddMessage` (the only
error source is `json.Marshal`). -/
theorem addMessage_marshal_ok (db : BoltDB) (chatID : String) (m : Message)
    (h : msgMarshalOk m = true) : (BoltDB.AddMessage db chatID m).2.1 = none := by
  unfold BoltDB.AddMessage
  cases hf : assocFind (messageBucketName chatID) db.msgBuckets with
  | none => rfl
  | some bk =>
    have h2 : msgMarshalOk { m with id := toString (bk.seq + 1) ++ "-" ++ m.id } = true := h
    simp [h2]

/-- Claim C5: on a POST to an existing chat whose last stored message is
an assistant message ending in a dangling `CallTool`, the handler first
persists (via `UpdateMessage`) that message extended with a `ToolResult`
whose `call_id` equals the dangling call's id, and only afterwards adds
the new user message and the assistant placeholder; for a last message
of any other shape the continuation step leaves the store untouched. -/
theorem c5_continuation_repair (toolsMap : List (String × Nat))
    (clients : Nat → CallToolParams → Except String CallToolResult)
    (db : BoltDB) (chatID : String) (userMsg aiMsg : Message) :
    (danglingCallTool (db.Messages chatID) = true →
     msgMarshalOk userMsg = true →
     msgMarshalOk aiMsg = true →
     (let lastMessage := (db.Messages chatID).getLastD default
      let lastC := lastMessage.contents.getLastD default
      let res := callTool toolsMap clients { name := lastC.toolName, arguments := lastC.toolInput }
      let repaired := { lastMessage with contents := lastMessage.contents ++
        [{ type := .toolResult, callToolID := lastC.callToolID,
           toolResult := res.1, callToolFailed := !res.2 }] }
      (BoltDB.UpdateMessage db chatID repaired).1 = none →
      (handleExistingPost toolsMap clients db chatID userMsg aiMsg).2 =
        [StoreOp.updateMsg chatID repaired, StoreOp.addMsg chatID userMsg,
         StoreOp.addMsg chatID aiMsg] ∧
      (repaired.contents.getLastD default).type = ContentType.toolResult ∧
      (repaired.contents.getLastD default).callToolID = lastC.callToolID)) ∧
    (danglingCallTool (db.Messages chatID) = false →
     continueChat toolsMap clients db chatID = (Except.ok db, [])) := by
  constructor
  · intro hd hu ha
    simp only []
    intro hupd
    cases hms : (db.Messages chatID).getLast? with
    | none => unfold danglingCallTool at hd; rw [hms] at hd; cases hd
    | some lm =>
      unfold danglingCallTool at hd
      rw [hms] at hd
      simp only [Bool.and_eq_true, beq_iff_eq, Bool.not_eq_true', List.isEmpty_eq_false] at hd
      obtain ⟨⟨hrole, hne⟩, htype⟩ := hd
      have hne2 : db.Messages chatID ≠ [] := by
        intro h0; rw [h0] at hms; cases hms
      have hlast : (db.Messages chatID).getLastD default = lm := by
        rw [List.getLastD_eq_getLast?, hms]; rfl
      have c1 : (db.Messages chatID).isEmpty = false := by
        simp [List.isEmpty_eq_false, hne2]
      have c2 : lm.contents.isEmpty = false := by
        simp [List.isEmpty_eq_false, hne]
      rw [hlast] at hupd ⊢
      have hcc : ∃ db2, continueChat toolsMap clients db chatID =
          (Except.ok db2,
           [StoreOp.updateMsg chatID
             { lm with contents := lm.contents ++
               [{ type := .toolResult,
                  callToolID := (lm.contents.getLastD default).callToolID,
                  toolResult := (callTool toolsMap clients
                    { name := (lm.contents.getLastD default).toolName,
                      arguments := (lm.contents.getLastD default).toolInput }).1,
                  callToolFailed := !(callTool toolsMap clients
                    { name := (lm.contents.getLastD default).toolName,
                      arguments := (lm.contents.getLastD default).toolInput }).2 }] }]) := by
        unfold continueChat
        simp only []
        rw [hlast]
        simp only [c1, c2, Bool.false_eq_true, if_false]
        rw [if_neg (fun hcontra => hcontra hrole)]
        rw [if_neg (fun hcontra => hcontra htype)]
        rw [hupd]
        exact ⟨_, rfl⟩
      obtain ⟨db2, hdb2⟩ := hcc
      refine ⟨?_, ?_, ?_⟩
      · unfold handleExistingPost
        rw [hdb2]
        simp [addMessage_marshal_ok _ _ _ hu, addMessage_marshal_ok _ _ _ ha]
      · simp [List.getLastD_concat]
      · simp [List.getLastD_concat]
  · intro hd
    cases hms : (db.Messages chatID).getLast? with
    | none =>
      have hempty : db.Messages chatID = [] := List.getLast?_eq_none_iff.mp hms
      unfold continueChat
      simp only []
      rw [hempty]
      rfl
    | some lm =>
      unfold danglingCallTool at hd
      rw [hms] at hd
      have hne2 : db.Messages chatID ≠ [] := by
        intro h0; rw [h0] at hms; cases hms
      have hlast : (db.Messages chatID).getLastD default = lm := by
        rw [List.getLastD_eq_getLast?, hms]; rfl
      have c1 : (db.Messages chatID).isEmpty = false := by
        simp [List.isEmpty_eq_false, hne2]
      unfold continueChat
      simp only []
      rw [hlast]
      simp only [c1, Bool.false_eq_true, if_false]
      by_cases hrole : lm.role = "assistant"
      · rw [if_neg (fun hcontra => hcontra hrole)]
        by_cases hne : lm.contents = []
        · have c2 : lm.contents.isEmpty = true := by simp [hne]
          simp only [c2, if_true]
        · have c2 : lm.contents.isEmpty = false := by
            simp [List.isEmpty_eq_false, hne]
          simp only [c2, Bool.false_eq_true, if_false]
          by_cases htype : (lm.contents.getLastD default).type = ContentType.callTool
          · exfalso
            simp [hrole, List.isEmpty_eq_false, hne] at hd
            rw [← List.getLastD_eq_getLast?] at hd
            exact hd htype
          · rw [if_pos htype]
      · rw [if_pos hrole]

end MWU

namespace MWU

def c5Db : BoltDB := { msgBuckets := [("chat-c1", { seq := 2, entries := [
  ("1-u", { id := "1-u", role := "user", contents := [{ type := .text, text := "hi" }] }),
  ("2-a", { id := "2-a", role := "assistant", contents := [
    { type := .text, text := "let me check" },
    { type := .callTool, toolName := "clock", toolInput := "{}", callToolID := "t1" }] })] })] }

def c5User : Message := { id := "u2", role := "user", contents := [{ type := .text, text := "again" }] }

def c5AI : Message := { id := "a2", role := "assistant" }

def c5Clients : Nat → CallToolParams → Except String CallToolResult := fun _ _ => Except.ok {}

def c5DbOther : BoltDB := { msgBuckets := [("chat-c2", { seq := 1, entries := [
  ("1-u", { id := "1-u", role := "user", contents := [{ type := .text, text := "hi" }] })] })] }

/-- Witness for `c5_continuation_repair`: a chat whose last message ends
in a dangling `CallTool` on the tool `clock` (repaired before the new
user message is added), and a chat whose last message is a user message
(store left untouched). -/
theorem c5_witness :
    (danglingCallTool (c5Db.Messages "c1") = true ∧
     (let lastMessage := (c5Db.Messages "c1").getLastD default
      let lastC := lastMessage.contents.getLastD default
      let res := callTool [] c5Clients { name := lastC.toolName, arguments := lastC.toolInput }
      let repaired := { lastMessage with contents := lastMessage.contents ++
        [{ type := .toolResult, callToolID := lastC.callToolID,
           toolResult := res.1, callToolFailed := !res.2 }] }
      (BoltDB.UpdateMessage c5Db "c1" repaired).1 = none ∧
      ((handleExistingPost [] c5Clients c5Db "c1" c5User c5AI).2 =
        [StoreOp.updateMsg "c1" repaired, StoreOp.addMsg "c1" c5User, StoreOp.addMsg "c1" c5AI] ∧
       (repaired.contents.getLastD default).type = ContentType.toolResult ∧
       (repaired.contents.getLastD default).callToolID = lastC.callToolID))) ∧
    (danglingCallTool (c5DbOther.Messages "c2") = false ∧
     continueChat [] c5Clients c5DbOther "c2" = (Except.ok c5DbOther, [])) := by
  refine ⟨⟨by decide, by decide, ?_⟩, by decide, ?_⟩
  · exact ((c5_continuation_repair [] c5Clients c5Db "c1" c5User c5AI).1
      (by decide) (by decide) (by decide)) (by decide)
  · exact (c5_continuation_repair [] c5Clients c5DbOther "c2" c5User c5AI).2 (by decide)

end MWU
